import Mathlib

/-!
A verification development for the DOM attachment / lifecycle engine of
`src/elementary.js` (the `el` builder from reactor.js's companion module).

The host document tree is shallowly embedded as a flat store: an association
list from a node id to its ordered list of child ids, together with an
association list recording each allocated node's kind (element / text /
comment / the document root).  Node `0` is the document.  A node is part of
the attached tree exactly when it is reachable from the document root, which
the embedding computes with explicit fuel (`domSize` bounds the depth of any
well-formed tree).

The reactive engine (`Observer` from `reactor.js`, which is not part of the
sources under verification) is kept abstract, exactly as the specification
treats it: a unit is identified by a `UnitId`, and the engine state tracked
here is only the set of started units, per the start/stop contract.  The
engine decides when an observer's rule runs and what value its read of
`child.value` produces, so rule executions (`runMeta`) and promise
resolutions (`resolvePromise`) take the produced value as a parameter.
-/

abbrev NodeId := Nat
abbrev UnitId := Nat

/-- Node kinds of the host tree: elements (with their tag), text nodes,
comment nodes (used as markers), and the document root. -/
inductive NKind where
  | element (tag : String)
  | text (s : String)
  | comment (s : String)
  | document
deriving DecidableEq, Repr

/-- The host tree: ordered children per node, and each node's kind.
A node absent from every child list is detached. -/
structure Dom where
  kids : List (NodeId × List NodeId)
  kindOf : List (NodeId × NKind)
deriving DecidableEq, Repr

/-- The document root node (the `document` global of the source). -/
def docRoot : NodeId := 0

/-- Ordered children of a node (empty if the node has no entry). -/
def getKids (d : Dom) (n : NodeId) : List NodeId :=
  (d.kids.lookup n).getD []

/-- Replace the children list of `n`, adding an entry if none exists. -/
def setAssoc (l : List (NodeId × List NodeId)) (n : NodeId) (v : List NodeId) :
    List (NodeId × List NodeId) :=
  match l with
  | [] => [(n, v)]
  | (k, w) :: rest => if k = n then (n, v) :: rest else (k, w) :: setAssoc rest n v

def setKids (d : Dom) (n : NodeId) (v : List NodeId) : Dom :=
  { d with kids := setAssoc d.kids n v }

/-- `parentNode`: the unique node whose child list contains `n`, if any. -/
def parentOf (d : Dom) (n : NodeId) : Option NodeId :=
  (d.kids.find? (fun p => p.2.contains n)).map (·.1)

def isElement (d : Dom) (n : NodeId) : Bool :=
  match d.kindOf.lookup n with
  | some (.element _) => true
  | _ => false

def isCommentNode (d : Dom) (n : NodeId) : Bool :=
  match d.kindOf.lookup n with
  | some (.comment _) => true
  | _ => false

/-- `parentElement`: the parent if it is an element node (so `none` when the
parent is the document itself or the node is detached). -/
def parentElementOf (d : Dom) (n : NodeId) : Option NodeId :=
  match parentOf d n with
  | some p => if isElement d p then some p else none
  | none => none

/-- Detach `n` from whatever parent it currently has (`node.remove()` /
the implicit removal step of `insertBefore` on an already-placed node). -/
def detachNode (d : Dom) (n : NodeId) : Dom :=
  { d with kids := d.kids.map (fun p => (p.1, p.2.filter (fun x => x ≠ n))) }

/-- Insert `x` immediately before the first occurrence of `i` (or at the end
when no insertion point is given; all call sites guard that a given `i` is a
current child of the list's owner). -/
def insertBeforeList (l : List NodeId) (x : NodeId) (ip : Option NodeId) :
    List NodeId :=
  match ip with
  | none => l ++ [x]
  | some i =>
    let rec go : List NodeId → List NodeId
      | [] => [x]
      | a :: as_ => if a = i then x :: a :: as_ else a :: go as_
    go l

/-- Pre-order subtree traversal with explicit fuel. -/
def subtreeF (d : Dom) : Nat → NodeId → List NodeId
  | 0, n => [n]
  | fuel + 1, n => n :: (getKids d n).flatMap (subtreeF d fuel)

/-- Fuel sufficient to exhaust any well-formed (acyclic) tree in the store. -/
def domSize (d : Dom) : Nat :=
  d.kids.foldl (fun a p => a + p.2.length + 1) 1

def subtree (d : Dom) (n : NodeId) : List NodeId :=
  subtreeF d (domSize d) n

/-- `document.contains(n)`: `n` is the document or lies in its subtree. -/
def docContains (d : Dom) (n : NodeId) : Bool :=
  (subtree d docRoot).contains n

/-- `getAllComments(root)` from the source: every comment node in the
subtree of `root`, in document order. -/
def getAllComments (d : Dom) (root : NodeId) : List NodeId :=
  (subtree d root).filter (isCommentNode d)

/-- `getNodesBetween(startNode, endNode)` from the source: the nodes strictly
between two siblings, walking forward from `startNode`; `none` models the
`RangeError` thrown when either node is detached, the parents differ, or
`endNode` is not reachable forward from `startNode`. -/
def getNodesBetween (d : Dom) (startNode endNode : NodeId) :
    Option (List NodeId) :=
  match parentOf d startNode, parentOf d endNode with
  | some p, some q =>
    if p = q then
      match (getKids d p).dropWhile (fun x => x ≠ startNode) with
      | [] => none
      | _ :: tail =>
        if tail.contains endNode then
          some (tail.takeWhile (fun x => x ≠ endNode))
        else none
    else none
  | _, _ => none

/-- One mutation record: the node whose child list changed, with the nodes
added and removed (mirrors the `MutationRecord` fields the source reads). -/
structure MRec where
  target : NodeId
  added : List NodeId
  removed : List NodeId
deriving DecidableEq, Repr

/-- The `observerTrio` record of the source: the two bookend comment nodes
and the observer they stand for.  (`clear` is `trioClear` below since it
mutates engine state.) -/
structure Trio where
  start : NodeId
  «end» : NodeId
  observer : UnitId
deriving DecidableEq, Repr

/-- Keys of the `observerTrios` weak map: the source registers each trio
under its two bookend nodes and under the observer object itself. -/
inductive TrioKey where
  | node (n : NodeId)
  | unit (u : UnitId)
deriving DecidableEq, Repr

/-- The data captured by the meta-observer closure of the source
(`observerStartNode`, `observerEndNode`, `self`, and the child observer). -/
structure MetaRule where
  observerStartNode : NodeId
  observerEndNode : NodeId
  self : NodeId
  child : UnitId
deriving DecidableEq, Repr

/-- Full engine state: the host tree, fresh-id counters, the `observerTrios`
registry, the set of started reactive units, the installed meta-observer
rules, the pending promise placeholders, the two mutation-record queues
(`docObserver` was constructed first, `bookmarkObserver` second), and the
set of nodes `bookmarkObserver` observes (every node `el` has wrapped). -/
structure EState where
  dom : Dom
  next : NodeId
  nextUnit : UnitId
  trios : List (TrioKey × Trio)
  started : List UnitId
  metaRules : List (UnitId × MetaRule)
  pending : List (Nat × NodeId × NodeId)
  docQueue : List MRec
  bookQueue : List MRec
  bookObserved : List NodeId
deriving DecidableEq, Repr

/-- `observer.start()`: idempotent on the set of started units. -/
def startUnit (l : List UnitId) (u : UnitId) : List UnitId :=
  if l.contains u then l else l ++ [u]

/-- `observer.stop()`: idempotent on the set of started units. -/
def stopUnit (l : List UnitId) (u : UnitId) : List UnitId :=
  l.filter (fun x => x ≠ u)

/-- Registry lookup `observerTrios.get(node)`. -/
def trioOfNode (s : EState) (n : NodeId) : Option Trio :=
  (s.trios.find? (fun p => p.1 = TrioKey.node n)).map (·.2)

/-- Queue a mutation record with the observers interested in `target`:
`docObserver` watches the whole document subtree, `bookmarkObserver` watches
the direct children of every node `el` has wrapped. -/
def recordMutation (s : EState) (target : NodeId)
    (added removed : List NodeId) : EState :=
  let r : MRec := ⟨target, added, removed⟩
  let s1 :=
    if docContains s.dom target then { s with docQueue := s.docQueue ++ [r] }
    else s
  if s1.bookObserved.contains target then
    { s1 with bookQueue := s1.bookQueue ++ [r] }
  else s1

/-- `node.remove()`: detach from the current parent (if any) and queue the
corresponding childList mutation record on the old parent. -/
def domRemove (s : EState) (n : NodeId) : EState :=
  match parentOf s.dom n with
  | none => s
  | some p =>
    let s' := { s with dom := detachNode s.dom n }
    recordMutation s' p [] [n]

/-- `parent.insertBefore(x, ip)`: first detach `x` from its old parent (with
its own mutation record, as the DOM does when moving a node), then splice it
into `parent`'s children and queue the addition record. -/
def domInsertBefore (s : EState) (p x : NodeId) (ip : Option NodeId) : EState :=
  let s1 := domRemove s x
  let s2 := { s1 with
    dom := setKids s1.dom p (insertBeforeList (getKids s1.dom p) x ip) }
  recordMutation s2 p [x] []

/-- `document.createElement` / `createTextNode` / `createComment`: allocate a
fresh, detached node of the given kind. -/
def allocNode (s : EState) (k : NKind) : EState × NodeId :=
  ({ s with dom := { s.dom with kindOf := (s.next, k) :: s.dom.kindOf },
            next := s.next + 1 },
   s.next)

/-- Body of the source's `docObserver` for one added node: every comment in
its subtree whose trio is registered has its observer started. -/
def docProcessAdded (s : EState) (n : NodeId) : EState :=
  (getAllComments s.dom n).foldl
    (fun st c =>
      match trioOfNode st c with
      | some t => { st with started := startUnit st.started t.observer }
      | none => st)
    s

/-- Body of the source's `docObserver` for one removed node: every comment in
its subtree whose trio is registered has its observer stopped. -/
def docProcessRemoved (s : EState) (n : NodeId) : EState :=
  (getAllComments s.dom n).foldl
    (fun st c =>
      match trioOfNode st c with
      | some t => { st with started := stopUnit st.started t.observer }
      | none => st)
    s

/-- The `docObserver` callback: per record, first all added nodes, then all
removed nodes. -/
def docCallback (s : EState) (recs : List MRec) : EState :=
  recs.foldl
    (fun st r =>
      let st1 := r.added.foldl docProcessAdded st
      r.removed.foldl docProcessRemoved st1)
    s

/-- `observerTrio.clear()` from the source: remove both bookends (each from
wherever it currently sits; a no-op for an already-detached bookend) and stop
the observer. -/
def trioClear (s : EState) (t : Trio) : EState :=
  let s1 := domRemove s t.start
  let s2 := domRemove s1 t.«end»
  { s2 with started := stopUnit s2.started t.observer }

/-- The `bookmarkObserver` callback: for every removed direct child that is a
registered bookend, tear its trio down. -/
def bookCallback (s : EState) (recs : List MRec) : EState :=
  recs.foldl
    (fun st r =>
      r.removed.foldl
        (fun st2 n =>
          match trioOfNode st2 n with
          | some t => trioClear st2 t
          | none => st2)
        st)
    s

/-- One notification round: deliver the queued records to `docObserver`
first (it was constructed first), then to `bookmarkObserver`; records queued
during the callbacks land in the queues for the next round. -/
def settleRound (s : EState) : EState :=
  let dq := s.docQueue
  let s1 := docCallback { s with docQueue := [] } dq
  let bq := s1.bookQueue
  bookCallback { s1 with bookQueue := [] } bq

/-- Let a mutation batch settle: run notification rounds until both queues
are empty (fuel-bounded; every scenario below is quiescent well within the
supplied fuel). -/
def settle : Nat → EState → EState
  | 0, s => s
  | fuel + 1, s =>
    if s.docQueue.isEmpty && s.bookQueue.isEmpty then s
    else settle fuel (settleRound s)

/-- The recognized child kinds of the append dispatcher, as a closed type:
`undef` covers `undefined`/`null`, `str` a string, `elem` an existing
element or fragment, `promise` a deferred value (identified by a promise
id), `observer` a reactive unit, `func` a plain function (modelled by the
value it returns; the source passes `self` as receiver and argument, which
only matters to the external computation), and `list` an iterable. -/
inductive Child where
  | undef
  | str (s : String)
  | elem (n : NodeId)
  | promise (pid : Nat)
  | observer (u : UnitId)
  | func (ret : Child)
  | list (cs : List Child)

/-- Modelled from the spec: `shuck` (imported from the `reactor.js` module,
which is outside the sources under src/) strips any internal wrapping layer
from a node before insertion; on the plain nodes of this embedding it is the
identity. -/
def shuck (n : NodeId) : NodeId := n

/-- The guard opening the source's `append`: a given insertion point whose
`parentElement` is not `self` aborts the insertion. -/
def abortIp (s : EState) (self : NodeId) (ip : Option NodeId) : Bool :=
  match ip with
  | none => false
  | some i => parentElementOf s.dom i ≠ some self

/-- The first half of the source's `Observer` branch: create the two
bookend comments, insert both before the insertion point (start first, so
start precedes end), register the trio under its three keys, and install
and start the meta-observer (whose rule data is recorded in `metaRules`;
its engine-driven executions are `runMeta`). -/
def observerPrefix (s : EState) (self : NodeId) (u : UnitId)
    (ip : Option NodeId) : EState :=
  let (s1, sn) := allocNode s (.comment "observerStart")
  let (s2, en) := allocNode s1 (.comment "observerEnd")
  let s3 := domInsertBefore s2 self sn ip
  let s4 := domInsertBefore s3 self en ip
  let t : Trio := ⟨sn, en, u⟩
  let s5 := { s4 with trios :=
    (TrioKey.node sn, t) :: (TrioKey.node en, t) ::
    (TrioKey.unit u, t) :: s4.trios }
  let mu := s5.nextUnit
  let s6 := { s5 with nextUnit := mu + 1,
                      metaRules := (mu, ⟨sn, en, self, u⟩) :: s5.metaRules }
  { s6 with started := startUnit s6.started mu }

/-- The kickoff lines closing the source's `Observer` branch — the context
binding is engine-side, then `child.stop(); child.start();
if (!document.contains(self)) child.stop()`. -/
def kickoffObserver (s : EState) (self : NodeId) (u : UnitId) : EState :=
  let s8 := { s with started := stopUnit s.started u }
  let s9 := { s8 with started := startUnit s8.started u }
  if docContains s9.dom self then s9
  else { s9 with started := stopUnit s9.started u }

mutual

/-- The `append(child, insertionPoint)` closure of the source for parent
`self`, in the source's dispatch order: the detached-insertion-point guard,
then `undefined`/`null`, string, element, `Promise`, `Observer`, plain
function, iterable.  Returns the updated state and `append`'s boolean
result.  The `Observer` branch creates the bookends, registers the trio
under all three keys, installs and starts the meta-observer (whose engine-
driven executions are `runMeta`), binds the child's contexts (engine-side,
no state here), and performs the `stop(); start(); if (!document.contains
(self)) stop()` kickoff. -/
def appendC (s : EState) (self : NodeId) (child : Child)
    (ip : Option NodeId) : EState × Bool :=
  if abortIp s self ip then (s, false)
  else
    match child with
    | .undef => (s, false)
    | .str t =>
      let (s1, tid) := allocNode s (.text t)
      (domInsertBefore s1 self tid ip, true)
    | .elem n => (domInsertBefore s self (shuck n) ip, true)
    | .promise pid =>
      let (s1, ph) := allocNode s (.comment "promisePlaceholder")
      let s2 := domInsertBefore s1 self ph ip
      ({ s2 with pending := (pid, ph, self) :: s2.pending }, true)
    | .observer u =>
      (kickoffObserver (observerPrefix s self u ip) self u, true)
    | .func r =>
      ((appendC s self r ip).1, true)
    | .list cs => (appendList s self cs ip, true)

/-- The iterable branch: append each element in order at the same insertion
point (the results of the recursive calls are discarded, as in the source). -/
def appendList (s : EState) (self : NodeId) (cs : List Child)
    (ip : Option NodeId) : EState :=
  match cs with
  | [] => s
  | c :: rest => appendList (appendC s self c ip).1 self rest ip

end

/-- `el` applied to an already-resolved host node: attach `bookmarkObserver`
to it and append the children in order with no insertion point. -/
def elOn (s : EState) (self : NodeId) (children : List Child) : EState :=
  let s1 :=
    if s.bookObserved.contains self then s
    else { s with bookObserved := self :: s.bookObserved }
  appendList s1 self children none

/-- The `then`-callback of the source's `Promise` branch, fired by the host
when the deferred value `v` for promise `pid` resolves: recursively append
`v` before the placeholder (the guard inside `append` drops the value if the
placeholder no longer sits under `self`), then remove the placeholder. -/
def resolvePromise (s : EState) (pid : Nat) (v : Child) : EState :=
  match s.pending.find? (fun p => p.1 = pid) with
  | none => s
  | some (_, ph, self) =>
    let s1 := (appendC s self v (some ph)).1
    domRemove s1 ph

/-- One engine-driven execution of a region's meta-observer rule, with
`result` the value produced by reading `child.value`: if both bookends still
sit under `self`, clear everything between them and append the result before
the end bookend; otherwise do nothing.  `none` models the `RangeError` of
`getNodesBetween` propagating (only reachable from malformed states). -/
def runMeta (s : EState) (m : MetaRule) (result : Child) : Option EState :=
  if parentOf s.dom m.observerStartNode = some m.self ∧
     parentOf s.dom m.observerEndNode = some m.self then
    match getNodesBetween s.dom m.observerStartNode m.observerEndNode with
    | none => none
    | some oldChildren =>
      let s1 := oldChildren.foldl (fun st c => domRemove st c) s
      some (appendC s1 m.self result (some m.observerEndNode)).1
  else some s

/-- The engine calls performed on the child observer by the kickoff lines of
the `Observer` branch (`child.stop(); child.start(); if (!document.contains
(self)) child.stop()`), in order, as a function of whether `self` is in the
attached tree at the check. -/
inductive UnitCall where
  | start
  | stop
deriving DecidableEq, Repr

def kickoffCalls (attached : Bool) : List UnitCall :=
  [UnitCall.stop, UnitCall.start] ++ (if attached then [] else [UnitCall.stop])

/-- A two-node document: the document root `0` with one attached `div`,
node `1`; ids `2+` are free, unit `0` is the user's observer, unit ids `1+`
are free for meta-observers. -/
def baseState : EState :=
  { dom := { kids := [(docRoot, [1])],
             kindOf := [(docRoot, NKind.document), (1, NKind.element "div")] },
    next := 2, nextUnit := 1, trios := [], started := [], metaRules := [],
    pending := [], docQueue := [], bookQueue := [], bookObserved := [] }

/-- `el(div, observer0)` on the attached div: bookends `2` and `3` are
created, the trio is registered, meta-observer `1` is installed and started,
and observer `0` is kicked off. -/
def regionState : EState := elOn baseState 1 [Child.observer 0]

/-- The build batch settled. -/
def sAtt0 : EState := settle 8 regionState

/-- The meta-observer rule installed by `regionState`. -/
def theRule : MetaRule := ⟨2, 3, 1, 0⟩

/-- One re-render producing the text `"x"` (text node `4`), settled: the
canonical live, attached region with rendered content. -/
def sA : EState :=
  settle 8 ((runMeta sAtt0 theRule (Child.str "x")).getD sAtt0)

/-- One whole-subtree move of the region's host: attach the host div to the
document (or detach it), then let the batch settle. -/
def hostStep (b : Bool) (s : EState) : EState :=
  settle 8 (if b then domInsertBefore s docRoot 1 none else domRemove s 1)

/-- The canonical detached state: the host subtree removed and settled. -/
def sD : EState := hostStep false sA

theorem parentOf_detachNode (d : Dom) (n : NodeId) :
    parentOf (detachNode d n) n = none := by
  simp [parentOf, detachNode, List.find?_map]

theorem recordMutation_dom (s : EState) (t : NodeId) (a r : List NodeId) :
    (recordMutation s t a r).dom = s.dom := by
  unfold recordMutation
  dsimp only
  split <;> split <;> rfl

theorem parentOf_none_detachNode (d : Dom) (m n : NodeId)
    (h : parentOf d n = none) : parentOf (detachNode d m) n = none := by
  unfold parentOf at h ⊢
  rw [Option.map_eq_none'] at h ⊢
  rw [List.find?_eq_none] at h ⊢
  intro x hx
  unfold detachNode at hx
  simp only [List.mem_map] at hx
  obtain ⟨y, hy, rfl⟩ := hx
  have hn := h y hy
  simp at hn ⊢
  intro hmem
  exact absurd hmem hn

theorem parentOf_domRemove_self (s : EState) (n : NodeId) :
    parentOf (domRemove s n).dom n = none := by
  unfold domRemove
  cases h : parentOf s.dom n with
  | none => simpa using h
  | some p => simp [recordMutation_dom, parentOf_detachNode]

theorem parentOf_none_domRemove (s : EState) (m n : NodeId)
    (h : parentOf s.dom n = none) : parentOf (domRemove s m).dom n = none := by
  unfold domRemove
  cases hm : parentOf s.dom m with
  | none => simpa using h
  | some p => simp [recordMutation_dom, parentOf_none_detachNode _ _ _ h]

theorem recordMutation_started (s : EState) (t : NodeId) (a r : List NodeId) :
    (recordMutation s t a r).started = s.started := by
  unfold recordMutation
  dsimp only
  split <;> split <;> rfl

theorem domRemove_started (s : EState) (n : NodeId) :
    (domRemove s n).started = s.started := by
  unfold domRemove
  cases h : parentOf s.dom n with
  | none => rfl
  | some p => rw [recordMutation_started]

theorem contains_stopUnit_self (l : List UnitId) (u : UnitId) :
    (stopUnit l u).contains u = false := by
  simp [stopUnit]

theorem contains_stopUnit_ne (l : List UnitId) (u v : UnitId) (h : v ≠ u) :
    (stopUnit l u).contains v = l.contains v := by
  simp [stopUnit, h]

theorem appendC_abort (s : EState) (self : NodeId) (c : Child)
    (ip : Option NodeId) (h : abortIp s self ip = true) :
    appendC s self c ip = (s, false) := by
  cases c <;> simp [appendC, h]

/-- A mutation batch `b` applied to the canonical state followed by a full
settle: used to quantify over arbitrary whole-host attach/detach sequences. -/
def hostSteps (ops : List Bool) : EState :=
  ops.foldl (fun s b => hostStep b s) sA

theorem hostStep_closure (b : Bool) (s : EState)
    (h : s = sA ∨ s = sD) : hostStep b s = sA ∨ hostStep b s = sD := by
  rcases h with rfl | rfl <;> cases b
  · right; exact (by decide : hostStep false sA = sD) ▸ rfl
  · left; exact (by decide : hostStep true sA = sA) ▸ rfl
  · right; exact (by decide : hostStep false sD = sD) ▸ rfl
  · left; exact (by decide : hostStep true sD = sA) ▸ rfl

theorem hostSteps_orbit (ops : List Bool) :
    hostSteps ops = sA ∨ hostSteps ops = sD := by
  unfold hostSteps
  induction ops using List.reverseRecOn with
  | nil => left; rfl
  | append_singleton xs b ih =>
    rw [List.foldl_append]
    exact hostStep_closure b _ ih

/-- A torn-down region: the start bookend removed from the detached host and
the cleanup settled, leaving both bookends detached and observer `0`
stopped (the registry entries survive, as the source's weak map does while
the nodes are alive). -/
def torn : EState := settle 8 (domRemove sD 2)

/-- A batch re-attaching only the lone start bookend of the torn-down
region directly under the document, settled. -/
def lone : EState := settle 8 (domInsertBefore torn docRoot 2 none)

/-- Claim C1 (counterexample): after a settled mutation batch that attaches
only the start bookend of a torn-down region, the region's unit is started
even though its end marker is not part of the attached tree — so "started
iff both markers are attached" does not hold for every batch. -/
theorem activation_lone_marker_breaks_iff :
    lone.started.contains 0 = true ∧ docContains lone.dom 2 = true ∧
    docContains lone.dom 3 = false := by decide

/-- Claim C1 (amended): for batches that attach or detach the region's
markers only together with their whole host subtree, after each batch
settles the region's unit is started exactly when its markers are part of
the attached tree. -/
theorem activation_coupling_after_settle :
    ∀ ops : List Bool,
      (hostSteps ops).started.contains 0 =
        (docContains (hostSteps ops).dom 2 && docContains (hostSteps ops).dom 3) := by
  intro ops
  rcases hostSteps_orbit ops with h | h <;> rw [h] <;> decide

/-- The region's start bookend removed as a direct child of the attached
host, settled. -/
def c2a : EState := settle 8 (domRemove sA 2)

/-- The region's end bookend removed as a direct child of the attached
host, settled. -/
def c2b : EState := settle 8 (domRemove sA 3)

/-- Both bookends removed in one batch (so when the cleanup for the second
runs, its partner is already gone), settled. -/
def c2mid : EState := settle 8 (domRemove (domRemove sA 3) 2)

/-- Claim C2: atomic teardown.  The synchronous cleanup step (`clear`)
always leaves both markers of the trio detached and its observer stopped,
for any state and any trio — so the cleanup is idempotent when the partner
marker is already gone; and concretely, removing either single marker of
the live attached region (or both in one batch) leaves, once the batch
settles, both markers detached and the unit stopped, and a further settle
changes nothing (no half-torn-down state is observable later). -/
theorem atomic_teardown_on_marker_removal :
    (∀ (s : EState) (t : Trio),
        parentOf (trioClear s t).dom t.start = none ∧
        parentOf (trioClear s t).dom t.«end» = none ∧
        (trioClear s t).started.contains t.observer = false) ∧
    (parentOf c2a.dom 2 = none ∧ parentOf c2a.dom 3 = none ∧
      c2a.started.contains 0 = false) ∧
    (parentOf c2b.dom 2 = none ∧ parentOf c2b.dom 3 = none ∧
      c2b.started.contains 0 = false) ∧
    (parentOf c2mid.dom 2 = none ∧ parentOf c2mid.dom 3 = none ∧
      c2mid.started.contains 0 = false) ∧
    settle 8 c2a = c2a := by
  refine ⟨?_, by decide, by decide, by decide, by decide⟩
  intro s t
  refine ⟨?_, ?_, ?_⟩
  · show parentOf (domRemove (domRemove s t.start) t.«end»).dom t.start = none
    exact parentOf_none_domRemove _ _ _ (parentOf_domRemove_self s t.start)
  · show parentOf (domRemove (domRemove s t.start) t.«end»).dom t.«end» = none
    exact parentOf_domRemove_self _ _
  · show (stopUnit (domRemove (domRemove s t.start) t.«end»).started
      t.observer).contains t.observer = false
    exact contains_stopUnit_self _ _

/-- Claim C8: marker pairing.  Under every sequence of whole-subtree
attach/detach/reattach operations on the region's host, both bookends stay
children of the host with the start marker immediately preceding the
rendered content and the end marker after it (`getNodesBetween` succeeds
and returns exactly the rendered content, so start precedes end under the
same parent). -/
theorem marker_pairing_under_host_moves :
    ∀ ops : List Bool,
      parentOf (hostSteps ops).dom 2 = some 1 ∧
      parentOf (hostSteps ops).dom 3 = some 1 ∧
      getKids (hostSteps ops).dom 1 = [2, 4, 3] ∧
      getNodesBetween (hostSteps ops).dom 2 3 = some [4] := by
  intro ops
  rcases hostSteps_orbit ops with h | h <;> rw [h] <;> decide

/-- Claim C10: the meta-observer is not stopped by teardown, and a run of
the re-render rule after either marker has left the host leaves the state
completely unchanged: the attachment guard makes the body a no-op, and
`clear` stops only the region's own observer, never the meta-observer. -/
theorem meta_observer_survives_teardown_but_inert :
    (∀ (s : EState) (m : MetaRule) (v : Child),
        ¬(parentOf s.dom m.observerStartNode = some m.self ∧
          parentOf s.dom m.observerEndNode = some m.self) →
        runMeta s m v = some s) ∧
    (∀ (s : EState) (t : Trio) (mu : UnitId), mu ≠ t.observer →
        (trioClear s t).started.contains mu = s.started.contains mu) := by
  constructor
  · intro s m v h
    unfold runMeta
    rw [if_neg h]
  · intro s t mu h
    show (stopUnit (domRemove (domRemove s t.start) t.«end»).started
      t.observer).contains mu = _
    rw [contains_stopUnit_ne _ _ _ h, domRemove_started, domRemove_started]

/-- Witness for C10 at a concrete input: in the two-node document (where
the rule's bookends are detached, so the guard fails) a run changes
nothing, and a teardown of a trio for observer `0` leaves meta-observer
`1`'s started-status untouched. -/
theorem meta_observer_survives_teardown_but_inert_witness :
    runMeta baseState theRule (Child.str "x") = some baseState ∧
    (trioClear baseState ⟨2, 3, 0⟩).started.contains 1 =
      baseState.started.contains 1 :=
  ⟨meta_observer_survives_teardown_but_inert.1 baseState theRule _ (by decide),
   meta_observer_survives_teardown_but_inert.2 baseState ⟨2, 3, 0⟩ 1 (by decide)⟩

/-- Every id in the child store is strictly below the allocator counter
(true of every state reachable from `el` on a well-formed document). -/
def freshState (s : EState) : Bool :=
  s.dom.kids.all
    (fun p => decide (p.1 < s.next) && p.2.all (fun x => decide (x < s.next)))

theorem lookup_setAssoc (l : List (NodeId × List NodeId)) (n : NodeId)
    (v : List NodeId) : (setAssoc l n v).lookup n = some v := by
  induction l with
  | nil => simp [setAssoc, List.lookup]
  | cons p rest ih =>
    obtain ⟨k, w⟩ := p
    by_cases h : k = n
    · subst h; simp [setAssoc, List.lookup]
    · simp [setAssoc, h, List.lookup, beq_false_of_ne (Ne.symm h), ih]

theorem getKids_setKids_self (d : Dom) (n : NodeId) (v : List NodeId) :
    getKids (setKids d n v) n = v := by
  simp [getKids, setKids, lookup_setAssoc]

theorem parentOf_next_none (s : EState) (h : freshState s = true) :
    parentOf s.dom s.next = none := by
  unfold parentOf
  rw [Option.map_eq_none', List.find?_eq_none]
  intro p hp
  unfold freshState at h
  rw [List.all_eq_true] at h
  have hh := h p hp
  simp only [Bool.and_eq_true, decide_eq_true_eq, List.all_eq_true] at hh
  intro hc
  rw [List.contains_eq_any_beq, List.any_eq_true] at hc
  obtain ⟨x, hx, hbeq⟩ := hc
  have hx2 : s.next = x := by simpa using hbeq
  have hlt := hh.2 x hx
  exact absurd hx2 (Nat.ne_of_gt hlt)

theorem abortIp_none (s : EState) (self : NodeId) :
    abortIp s self none = false := rfl

/-- The two-node document plus a detached `span` node `5` (allocated before
the free-id range, never placed in any child list). -/
def cState : EState :=
  { baseState with dom := { baseState.dom with
      kindOf := baseState.dom.kindOf ++ [(5, NKind.element "span")] } }

/-- Claim C3 (counterexample): with a child of a recognized kind and an
insertion point that is detached from the parent, `append` inserts nothing
at all — the state is returned unchanged with result `false` — instead of
placing the content at the end of the parent's children as claimed. -/
theorem append_detached_insertion_point_aborts :
    appendC cState 1 (Child.str "hello") (some 5) = (cState, false) := by
  decide

/-- Claim C3 (amended): when the insertion point is absent, `append`
inserts the child's content at the end of the parent's children; when an
insertion point is given but its `parentElement` is not the parent (it is
detached or sits elsewhere), `append` aborts without inserting anything
and returns `false`. -/
theorem append_insertion_point_contract :
    (∀ (s : EState) (self : NodeId) (c : Child) (i : NodeId),
        parentElementOf s.dom i ≠ some self →
        appendC s self c (some i) = (s, false)) ∧
    (∀ (s : EState) (self : NodeId) (t : String), freshState s = true →
        getKids ((appendC s self (Child.str t) none).1).dom self =
          getKids s.dom self ++ [s.next]) := by
  constructor
  · intro s self c i h
    apply appendC_abort
    simp [abortIp, h]
  · intro s self t h
    simp only [appendC, abortIp]
    rw [if_neg (by decide : ¬(false = true))]
    dsimp only [allocNode]
    unfold domInsertBefore
    have h1 : parentOf ({ s with
        dom := { s.dom with kindOf := (s.next, NKind.text t) :: s.dom.kindOf },
        next := s.next + 1 } : EState).dom s.next = none := parentOf_next_none s h
    unfold domRemove
    rw [h1]
    dsimp only
    rw [recordMutation_dom, getKids_setKids_self]
    rfl

/-- Witness for the amended C3 at concrete inputs: an insertion point with
no parent aborts with `false`, and an absent insertion point appends the
new text node (id `2`) at the end of the host's children. -/
theorem append_insertion_point_contract_witness :
    appendC cState 1 (Child.str "hey") (some 9) = (cState, false) ∧
    getKids ((appendC cState 1 (Child.str "hi") none).1).dom 1 =
      getKids cState.dom 1 ++ [cState.next] :=
  ⟨append_insertion_point_contract.1 cState 1 _ 9 (by decide),
   append_insertion_point_contract.2 cState 1 "hi" (by decide)⟩

/-- Claim C4 (counterexample): appending a recognized child that produces
no content — an empty sequence, or a function returning nothing — leaves
the state completely unchanged yet returns `true`, not `false`. -/
theorem append_true_without_insertion :
    appendC cState 1 (Child.list []) none = (cState, true) ∧
    appendC cState 1 (Child.func Child.undef) none = (cState, true) := by
  decide

/-- Claim C4 (amended): `append` returns `false` exactly when the guard
aborts (insertion point detached from the parent) or the child is
`undefined`/`null`; for every other recognized child it returns `true`
regardless of whether any content was actually inserted. -/
theorem append_return_value_contract :
    ∀ (s : EState) (self : NodeId) (c : Child) (ip : Option NodeId),
      ((appendC s self c ip).2 = false) ↔
        (abortIp s self ip = true ∨ c = Child.undef) := by
  intro s self c ip
  by_cases h : abortIp s self ip
  · rw [appendC_abort _ _ _ _ h]
    simp [h]
  · cases c <;> simp [appendC, h]

/-- Claim C5 (counterexample): the kickoff of the `Observer` branch always
invokes `start()` on the unit — the call sequence for an off-tree host is
stop, start, stop — so the unit is not simply "initialized stopped and
left stopped, never started": it is transiently started even when the host
is not part of the attached tree. -/
theorem kickoff_invokes_start_off_tree :
    kickoffCalls false = [UnitCall.stop, UnitCall.start, UnitCall.stop] ∧
    UnitCall.start ∈ kickoffCalls false := by
  decide

theorem kickoffObserver_stopped (s : EState) (self : NodeId) (u : UnitId)
    (h : docContains (kickoffObserver s self u).dom self = false) :
    (kickoffObserver s self u).started.contains u = false := by
  unfold kickoffObserver at h ⊢
  dsimp only at h ⊢
  by_cases hc : docContains s.dom self
  · rw [if_pos hc] at h ⊢
    exact absurd h (by simp [hc])
  · rw [if_neg hc]
    exact contains_stopUnit_self _ _

/-- Claim C5 (amended): when a Reactive Unit is appended under a host that
is not part of the attached tree at the kickoff check, the unit ends the
append in the stopped state (the net effect of the stop–start–stop
kickoff), so it is left stopped even though `start` was transiently
invoked. -/
theorem kickoff_leaves_unit_stopped_off_tree :
    ∀ (s : EState) (self : NodeId) (u : UnitId),
      docContains ((appendC s self (Child.observer u) none).1).dom self = false →
      ((appendC s self (Child.observer u) none).1).started.contains u = false := by
  intro s self u h
  simp only [appendC, abortIp_none] at h ⊢
  rw [if_neg (by decide : ¬(false = true))] at h ⊢
  dsimp only at h ⊢
  exact kickoffObserver_stopped _ self u h

/-- An off-tree host: node `1` exists but is not attached under the
document root. -/
def offHost : EState :=
  { dom := { kids := [(docRoot, [])],
             kindOf := [(docRoot, NKind.document), (1, NKind.element "div")] },
    next := 2, nextUnit := 1, trios := [], started := [], metaRules := [],
    pending := [], docQueue := [], bookQueue := [], bookObserved := [1] }

/-- Witness for the amended C5: appending observer `0` under the detached
host leaves observer `0` stopped. -/
theorem kickoff_leaves_unit_stopped_off_tree_witness :
    ((appendC offHost 1 (Child.observer 0) none).1).started.contains 0 = false :=
  kickoff_leaves_unit_stopped_off_tree offHost 1 0 (by decide)

/-- A pending deferred child appended to the attached host: the placeholder
comment `2` is inserted synchronously and registered under promise id `7`. -/
def pS : EState := (appendC baseState 1 (Child.promise 7) none).1

/-- The deferred value resolved to `"done"` while the placeholder is still
attached to its expected parent. -/
def rS : EState := resolvePromise pS 7 (Child.str "done")

/-- The placeholder removed from the tree before the value resolves. -/
def remS : EState := domRemove pS 2

/-- The placeholder moved under a different element parent (node `9`)
before the value resolves. -/
def mvS : EState :=
  { pS with dom := { kids := [(docRoot, [1, 9]), (1, []), (9, [2])],
                     kindOf := (9, NKind.element "p") :: pS.dom.kindOf } }

/-- Claim C6: deferred value resolution.  Generically, resolving a promise
whose placeholder has been removed from the tree leaves the state exactly
unchanged (no error, no observable effect); concretely, appending a
deferred child synchronously inserts exactly one placeholder marker and no
other content, and resolution while the placeholder is still attached
appends the resolved text immediately in its place and removes the
placeholder. -/
theorem deferred_placeholder_resolution :
    (∀ (s : EState) (pid : Nat) (v : Child) (q : Nat × NodeId × NodeId),
        s.pending.find? (fun p => p.1 = pid) = some q →
        parentOf s.dom q.2.1 = none →
        resolvePromise s pid v = s) ∧
    (getKids pS.dom 1 = [2] ∧
      pS.dom.kindOf.lookup 2 = some (NKind.comment "promisePlaceholder") ∧
      getKids rS.dom 1 = [3] ∧
      rS.dom.kindOf.lookup 3 = some (NKind.text "done") ∧
      parentOf rS.dom 2 = none) ∧
    resolvePromise remS 7 (Child.str "done") = remS := by
  refine ⟨?_, by decide, by decide⟩
  intro s pid v q hfind hdet
  obtain ⟨pid', ph, self⟩ := q
  unfold resolvePromise
  rw [hfind]
  dsimp only
  rw [appendC_abort _ _ _ _ (by simp [abortIp, parentElementOf, hdet])]
  dsimp only
  unfold domRemove
  rw [hdet]

/-- Witness for C6's generic stale-resolution clause at a concrete input:
resolving after the placeholder was removed changes nothing. -/
theorem deferred_placeholder_resolution_witness :
    resolvePromise remS 7 (Child.str "zz") = remS :=
  deferred_placeholder_resolution.1 remS 7 _ (7, 2, 1) (by decide) (by decide)

/-- Claim C9: when a deferred child resolves and the placeholder no longer
sits under its original parent, the resolved value is dropped but the
`then`-callback still removes the placeholder unconditionally — the whole
resolution equals a bare `remove()` of the placeholder, which detaches it
from wherever it currently is. -/
theorem stale_resolution_still_detaches_placeholder :
    ∀ (s : EState) (pid : Nat) (v : Child) (q : Nat × NodeId × NodeId),
      s.pending.find? (fun p => p.1 = pid) = some q →
      parentElementOf s.dom q.2.1 ≠ some q.2.2 →
      resolvePromise s pid v = domRemove s q.2.1 ∧
      parentOf (resolvePromise s pid v).dom q.2.1 = none := by
  intro s pid v q hfind hne
  obtain ⟨pid', ph, self⟩ := q
  unfold resolvePromise
  rw [hfind]
  dsimp only
  rw [appendC_abort _ _ _ _ (by simp [abortIp, hne])]
  exact ⟨rfl, parentOf_domRemove_self _ _⟩

/-- Witness for C9: the placeholder was moved under element `9`; resolving
drops the value yet detaches the placeholder from node `9`. -/
theorem stale_resolution_still_detaches_placeholder_witness :
    resolvePromise mvS 7 (Child.str "done") = domRemove mvS 2 ∧
    parentOf (resolvePromise mvS 7 (Child.str "done")).dom 2 = none :=
  stale_resolution_still_detaches_placeholder mvS 7 _ (7, 2, 1)
    (by decide) (by decide)

/-- Shape invariant for the re-render scenario: host `1` holds exactly the
bookends `2`, `3` with a single rendered node `t` between them, `t` carries
the text `"x"`, and `t` sits below the allocation counter. -/
abbrev C7Inv (t : NodeId) (s : EState) : Prop :=
  s.dom.kids = [(docRoot, [1]), (1, [2, t, 3])] ∧
  s.dom.kindOf.lookup t = some (NKind.text "x") ∧
  s.dom.kindOf.lookup 1 = some (NKind.element "div") ∧
  s.bookObserved = [1] ∧
  3 < t ∧ t < s.next

theorem c7Inv_between (s : EState) (t : NodeId) (h : C7Inv t s) :
    getNodesBetween s.dom 2 3 = some [t] := by
  obtain ⟨hk, -, -, -, h3, -⟩ := h
  have hne3t : (3 : Nat) ≠ t := Nat.ne_of_lt h3
  have hnet3 : t ≠ 3 := Nat.ne_of_gt h3
  simp [getNodesBetween, parentOf, getKids, hk, docRoot, hne3t, hnet3,
    List.lookup, List.dropWhile, List.takeWhile]

theorem c7_step (s : EState) (t : NodeId) (h : C7Inv t s) :
    (runMeta s theRule (Child.str "x")).isSome = true ∧
    C7Inv s.next ((runMeta s theRule (Child.str "x")).getD s) := by
  obtain ⟨hk, ht, h1, hb, h3, hn⟩ := h
  have h4n : 4 < s.next := Nat.lt_of_le_of_lt (Nat.succ_le_of_lt h3) hn
  have h2lt : 2 < t := Nat.lt_trans (by decide) h3
  have h1lt : 1 < t := Nat.lt_trans (by decide) h3
  have h0lt : 0 < t := Nat.lt_trans (by decide) h3
  have h3n : 3 < s.next := Nat.lt_trans (by decide) h4n
  have h2n : 2 < s.next := Nat.lt_trans (by decide) h4n
  have h1n : 1 < s.next := Nat.lt_trans (by decide) h4n
  have h0n : 0 < s.next := Nat.lt_trans (by decide) h4n
  have hne3t : (3 : Nat) ≠ t := Nat.ne_of_lt h3
  have hnet3 : t ≠ 3 := Nat.ne_of_gt h3
  have hnet1 : t ≠ 1 := Nat.ne_of_gt h1lt
  have hnet2 : t ≠ 2 := Nat.ne_of_gt h2lt
  have hnet0 : t ≠ 0 := Nat.ne_of_gt h0lt
  have h1t : (1 : Nat) ≠ t := Nat.ne_of_lt h1lt
  have h2t : (2 : Nat) ≠ t := Nat.ne_of_lt h2lt
  have h0t : (0 : Nat) ≠ t := Nat.ne_of_lt h0lt
  have hx0 : s.next ≠ 0 := Nat.ne_of_gt h0n
  have hx1 : s.next ≠ 1 := Nat.ne_of_gt h1n
  have hx2 : s.next ≠ 2 := Nat.ne_of_gt h2n
  have hx3 : s.next ≠ 3 := Nat.ne_of_gt h3n
  have h0x : (0 : Nat) ≠ s.next := Nat.ne_of_lt h0n
  have h1x : (1 : Nat) ≠ s.next := Nat.ne_of_lt h1n
  have h2x : (2 : Nat) ≠ s.next := Nat.ne_of_lt h2n
  have h3x : (3 : Nat) ≠ s.next := Nat.ne_of_lt h3n
  have htx : t ≠ s.next := Nat.ne_of_lt hn
  have hxt : s.next ≠ t := Nat.ne_of_gt hn
  have hp2 : parentOf s.dom 2 = some 1 := by simp [parentOf, hk, docRoot]
  have hp3 : parentOf s.dom 3 = some 1 := by
    simp [parentOf, hk, docRoot, hne3t]
  have hbet : getNodesBetween s.dom 2 3 = some [t] := by
    simp [getNodesBetween, parentOf, getKids, hk, docRoot, hne3t, hnet3,
      List.lookup, List.dropWhile, List.takeWhile]
  have hstate : runMeta s theRule (Child.str "x") = some
      { dom := { kids := [(docRoot, [1]), (1, [2, s.next, 3])],
                 kindOf := (s.next, NKind.text "x") :: s.dom.kindOf },
        next := s.next + 1, nextUnit := s.nextUnit, trios := s.trios,
        started := s.started, metaRules := s.metaRules, pending := s.pending,
        docQueue := s.docQueue ++ [⟨1, [], [t]⟩, ⟨1, [s.next], []⟩],
        bookQueue := s.bookQueue ++ [⟨1, [], [t]⟩, ⟨1, [s.next], []⟩],
        bookObserved := s.bookObserved } := by
    unfold runMeta
    rw [if_pos ⟨hp2, hp3⟩]
    dsimp only [theRule]
    rw [hbet]
    dsimp only [List.foldl]
    simp [domRemove, domInsertBefore, recordMutation, detachNode, allocNode,
      appendC, abortIp, parentElementOf, parentOf, isElement, getKids, setKids,
      setAssoc, insertBeforeList, insertBeforeList.go, docContains, subtree,
      subtreeF, domSize, docRoot, List.lookup, List.filter, List.flatMap,
      hk, ht, h1, hb, hne3t, hnet3, hnet1, hnet2, hnet0, h1t, h2t, h0t,
      hx0, hx1, hx2, hx3, h0x, h1x, h2x, h3x, htx, hxt]
  rw [hstate]
  refine ⟨rfl, rfl, ?_, ?_, hb, h3n, Nat.lt_succ_self _⟩
  · simp [List.lookup]
  · have hbeq : (1 == s.next) = false := by simpa using h1x
    simp [List.lookup, hbeq, h1]

/-- The canonical region re-rendered `n` times, each run producing the text
value `"x"` (the engine re-runs the meta-observer whenever the child
observer recomputes). -/
def iterMeta : Nat → EState
  | 0 => sA
  | n + 1 => (runMeta (iterMeta n) theRule (Child.str "x")).getD (iterMeta n)

theorem iterMeta_inv : ∀ n : Nat, ∃ t : NodeId, C7Inv t (iterMeta n) := by
  intro n
  induction n with
  | zero => exact ⟨4, by decide⟩
  | succ n ih =>
    obtain ⟨t, hinv⟩ := ih
    exact ⟨(iterMeta n).next, (c7_step _ _ hinv).2⟩

/-- Claim C7: re-render replaces rather than accumulates.  After any number
of re-renders of the region's rule, each returning a single text value,
there is exactly one node between the bookends, and it is a text node with
the rendered value — never `n` accumulated nodes (and every run succeeded:
the rule's guard found both markers attached and its traversal succeeded). -/
theorem rerender_replaces_not_accumulates :
    ∀ n : Nat, ∃ t : NodeId,
      getNodesBetween (iterMeta n).dom 2 3 = some [t] ∧
      (iterMeta n).dom.kindOf.lookup t = some (NKind.text "x") ∧
      (runMeta (iterMeta n) theRule (Child.str "x")).isSome = true := by
  intro n
  obtain ⟨t, hinv⟩ := iterMeta_inv n
  exact ⟨t, c7Inv_between _ _ hinv, hinv.2.1, (c7_step _ _ hinv).1⟩
